import Mathlib

/-!
Shallow embedding of the pdfcpu object-level parser (package model, parse source
file) together with proofs checking the specification's claims against it.

The input buffer is modelled as `List Char`, one `Char` per source byte
(the inputs the claims concern are byte strings; Go's rune iteration coincides
with byte iteration on them).  Go functions taking a `*string` cursor are
embedded as pure functions returning the final cursor value alongside the
result; where the Go code returns an error without assigning the cursor the
embedding's error value carries no cursor, matching the callers, which discard
their local copy on error.
-/

namespace PdfcpuParse

/-- Go `unicode.IsSpace` restricted to byte-sized runes:
tab, LF, VT, FF, CR, space, NEL (0x85), NBSP (0xA0). -/
def isGoSpace (c : Char) : Bool :=
  c = '\x09' || c = '\x0A' || c = '\x0B' || c = '\x0C' ||
  c = '\x0D' || c = ' ' || c = '\x85' || c = '\xA0'

/-- The whitespace predicate of the source: `unicode.IsSpace(c) || c == 0x00`. -/
def whitespace (c : Char) : Bool :=
  isGoSpace c || c = '\x00'

/-- The relaxed-mode whitespace set that excludes end-of-line bytes:
`'\t', '\v', '\f', ' ', 0x85, 0xA0, 0x00`. -/
def whitespaceNoEol (c : Char) : Bool :=
  c = '\x09' || c = '\x0B' || c = '\x0C' || c = ' ' ||
  c = '\x85' || c = '\xA0' || c = '\x00'

/-- `delimiter` from the source: membership in `"<>[]()/"`. -/
def delimiter (b : Char) : Bool :=
  b = '<' || b = '>' || b = '[' || b = ']' || b = '(' || b = ')' || b = '/'

/-- Go `strings.HasPrefix` on byte lists. -/
def hasPfx : List Char → List Char → Bool
  | [], _ => true
  | _ :: _, [] => false
  | a :: as, b :: bs => if a = b then hasPfx as bs else false

/-- Index of the first byte satisfying `p` (the `for i, c := range s` scans of
the source). -/
def findIdxFrom (p : Char → Bool) : List Char → Option Nat
  | [] => none
  | c :: rest => if p c then some 0 else (findIdxFrom p rest).map (· + 1)

/-- `positionToNextWhitespace`: index of the first whitespace byte and the
suffix from it; `(0, s)` when none is found. -/
def positionToNextWhitespace (s : List Char) : Int × List Char :=
  match findIdxFrom (fun c => whitespace c) s with
  | some i => ((i : Int), s.drop i)
  | none => (0, s)

/-- `positionToNextWhitespaceOrChar`: index of the first whitespace byte or
byte in `chars`, `(-1, s)` when none; defers to `positionToNextWhitespace`
when `chars` is empty. -/
def positionToNextWhitespaceOrChar (s chars : List Char) : Int × List Char :=
  if chars = [] then positionToNextWhitespace s
  else
    match findIdxFrom (fun c => chars.contains c || whitespace c) s with
    | some i => ((i : Int), s.drop i)
    | none => (-1, s)

/-- `positionToNextEOL`: the suffix of `s` starting at the first LF or CR,
or `[]` when there is none. -/
def positionToNextEOL : List Char → List Char
  | [] => []
  | c :: rest => if c = '\x0A' || c = '\x0D' then c :: rest else positionToNextEOL rest

/-- The loop body of `trimLeftSpace`, with explicit fuel.  Each iteration
strictly shrinks the buffer before recursing (a comment of length ≥ 2 is
removed up to the next EOL), so the wrapper's fuel `s.length + 1` is never
exhausted. -/
def trimLeftSpaceAux : Nat → List Char → Bool → Bool → List Char × Bool
  | 0, s, _, eol => (s, eol)
  | fuel + 1, s, relaxed, eol =>
    let p : List Char × Bool :=
      if relaxed then
        let t := s.dropWhile (fun c => whitespaceNoEol c)
        (t, eol || (t.head? = some '\x0A' || t.head? = some '\x0D'))
      else (s, eol)
    let s2 := p.1.dropWhile (fun c => whitespace c)
    if s2.length ≤ 1 || s2.head? ≠ some '%' then (s2, p.2)
    else trimLeftSpaceAux fuel (positionToNextEOL s2) relaxed p.2

/-- `trimLeftSpace`: trim leading whitespace and `%`-comments; in relaxed mode
additionally report whether an end-of-line byte was crossed. -/
def trimLeftSpace (s : List Char) (relaxed : Bool) : List Char × Bool :=
  trimLeftSpaceAux (s.length + 1) s relaxed false

/-- `forwardParseBuf`: `buf[pos:]` when `pos < len(buf)`, else the empty buffer. -/
def forwardParseBuf (buf : List Char) (pos : Nat) : List Char :=
  if pos < buf.length then buf.drop pos else []

/-- Go `unicode.ToUpper` restricted to ASCII letters (the only case-mapped
bytes the parser can meet). -/
def goUpper (c : Char) : Char :=
  if 'a' ≤ c ∧ c ≤ 'z' then Char.ofNat (c.toNat - 32) else c

/-- The mid-literal whitespace set of `hexString`: `" \x09\x0A\x0C\x0D"`. -/
def hexStringWs (c : Char) : Bool :=
  c = ' ' || c = '\x09' || c = '\x0A' || c = '\x0C' || c = '\x0D'

/-- Membership in `"ABCDEF1234567890"`. -/
def isUpperHex (c : Char) : Bool :=
  ('A' ≤ c ∧ c ≤ 'F') || ('0' ≤ c ∧ c ≤ '9')

/-- The effect of Go `strings.ToUpper` on hex-literal content, tabulated for
the six bytes whose case mapping can change the outcome of `hexString`; any
other lowercase letter maps to an uppercase letter that is equally rejected,
and every further byte is fixed by `ToUpper`. -/
def hexUpper (c : Char) : Char :=
  if c = 'a' then 'A' else if c = 'b' then 'B' else if c = 'c' then 'C'
  else if c = 'd' then 'D' else if c = 'e' then 'E' else if c = 'f' then 'F'
  else c

/-- The per-character loop of `hexString`, iterating over the upper-cased
content: `i` counts hex digits emitted since the start or the last inserted
pad; whitespace with an odd count inserts a `'0'` and resets the count; a
trailing odd count appends a `'0'`. -/
def hexStringAux : List Char → Nat → Option (List Char)
  | [], i => some (if i % 2 = 1 then ['0'] else [])
  | c0 :: rest, i =>
    let c := hexUpper c0
    if hexStringWs c then
      if i % 2 = 1 then (hexStringAux rest 0).map (fun t => '0' :: t)
      else hexStringAux rest i
    else if isUpperHex c then (hexStringAux rest (i + 1)).map (fun t => c :: t)
    else none

/-- `hexString`: validate and normalize hex-literal content; `none` on a byte
that is neither a hex digit nor mid-literal whitespace. -/
def hexString (s : List Char) : Option (List Char) :=
  if s = [] then some []
  else hexStringAux s 0

/-- The scan of `balancedParenthesesSpan` (source name
`balancedParenthesesPrefix`): depth counter `j`, escape flag, current index. -/
def balancedParenAux : List Char → Bool → Int → Nat → Int
  | [], _, _, _ => -1
  | c :: rest, escaped, j, i =>
    if !escaped && c = '\\' then balancedParenAux rest true j (i + 1)
    else if escaped then balancedParenAux rest false j (i + 1)
    else
      let j' := if c = '(' then j + 1 else if c = ')' then j - 1 else j
      if j' = 0 then (i : Int) else balancedParenAux rest false j' (i + 1)

/-- `balancedParenthesesPrefix` from the source (renamed): the index of the
closing `')'` of the balanced-parentheses prefix, or `-1` when unbalanced.
A `'\'` byte neutralizes the following byte for depth purposes. -/
def balancedParenthesesSpan (s : List Char) : Int :=
  balancedParenAux s false 0 0

/-- Go `strings.TrimSpace` (used on hex-literal content): trim
`unicode.IsSpace` bytes from both ends. -/
def goTrimSpace (s : List Char) : List Char :=
  ((s.dropWhile (fun c => isGoSpace c)).reverse.dropWhile (fun c => isGoSpace c)).reverse

/-- Hex digits as accepted by `encoding/hex.DecodeString`. -/
def isHexDigitGo (c : Char) : Bool :=
  ('0' ≤ c ∧ c ≤ '9') || ('a' ≤ c ∧ c ≤ 'f') || ('A' ≤ c ∧ c ≤ 'F')

/-- `validateNameHexSequence`: every `'#'` must be followed by two hex digits;
`true` means valid. -/
def validateNameHexSequence : List Char → Bool
  | [] => true
  | '#' :: a :: b :: rest =>
    if isHexDigitGo a && isHexDigitGo b then validateNameHexSequence rest else false
  | '#' :: _ => false
  | _ :: rest => validateNameHexSequence rest

/-- Outcome distinctions of `strconv.Atoi` the source inspects
(`isRangeError`). -/
inductive AtoiErr where
  | syn
  | range
  deriving DecidableEq, Repr

/-- Decimal digit. -/
def isDigitCh (c : Char) : Bool := '0' ≤ c ∧ c ≤ '9'

/-- Numeric value of a digit string. -/
def digitsToNat (s : List Char) : Nat :=
  s.foldl (fun acc c => acc * 10 + (c.toNat - '0'.toNat)) 0

/-- Model of `strconv.Atoi` (= `ParseInt(s, 10, 64)` on a 64-bit platform):
syntax error on an empty string or any non-digit after the optional sign,
range error when the value leaves `[-2^63, 2^63-1]`. -/
def goAtoi (s : List Char) : Except AtoiErr Int :=
  match s with
  | [] => .error .syn
  | c :: rest =>
    let neg : Bool := c = '-'
    let digits := if c = '-' || c = '+' then rest else s
    if digits = [] || !digits.all (fun c => isDigitCh c) then .error .syn
    else
      let v : Int := if neg then -(digitsToNat digits : Int) else (digitsToNat digits : Int)
      if v < -(2 ^ 63) || v > 2 ^ 63 - 1 then .error .range else .ok v

/-- Case-insensitive character comparison for the special float strings. -/
def eqCI (a b : Char) : Bool := goUpper a = goUpper b

/-- Exponent part of a float token: optional sign then one or more digits. -/
def floatExpPartOk (s : List Char) : Bool :=
  let t := match s with
    | c :: rest => if c = '+' || c = '-' then rest else s
    | [] => s
  !t.isEmpty && t.all (fun c => isDigitCh c)

/-- Decimal mantissa with optional exponent. -/
def floatDecOk (s : List Char) : Bool :=
  let d1 := s.takeWhile (fun c => isDigitCh c)
  let r1 := s.dropWhile (fun c => isDigitCh c)
  let pr : List Char × List Char :=
    match r1 with
    | '.' :: t => (t.takeWhile (fun c => isDigitCh c), t.dropWhile (fun c => isDigitCh c))
    | _ => ([], r1)
  if d1.length + pr.1.length = 0 then false
  else
    match pr.2 with
    | [] => true
    | e :: t => (e = 'e' || e = 'E') && floatExpPartOk t

/-- Hexadecimal mantissa (after `0x`/`0X`) with its mandatory `p`-exponent. -/
def floatHexOk (s : List Char) : Bool :=
  let d1 := s.takeWhile (fun c => isHexDigitGo c)
  let r1 := s.dropWhile (fun c => isHexDigitGo c)
  let pr : List Char × List Char :=
    match r1 with
    | '.' :: t => (t.takeWhile (fun c => isHexDigitGo c), t.dropWhile (fun c => isHexDigitGo c))
    | _ => ([], r1)
  if d1.length + pr.1.length = 0 then false
  else
    match pr.2 with
    | p :: t => (p = 'p' || p = 'P') && floatExpPartOk t
    | [] => false

/-- Syntactic model of `strconv.ParseFloat(s, 64)`: optional sign, then one of
the special strings `inf`/`infinity`/`nan` (case-insensitive), a hexadecimal
mantissa-exponent form, or a decimal mantissa with optional exponent.
Binary64 rounding and the overflow-to-`ErrRange` case are not modelled: no
claim depends on a float's value, only on the token's acceptance. -/
def goParseFloatOk (s : List Char) : Bool :=
  let t := match s with
    | c :: rest => if c = '+' || c = '-' then rest else s
    | [] => s
  if (List.zipWith eqCI t "inf".data).all id && t.length == 3 then true
  else if (List.zipWith eqCI t "infinity".data).all id && t.length == 8 then true
  else if (List.zipWith eqCI t "nan".data).all id && t.length == 3 then true
  else
    match t with
    | '0' :: x :: rest => if x = 'x' || x = 'X' then floatHexOk rest else floatDecOk t
    | _ => floatDecOk t

/-- Go `strings.Index`: index of the first occurrence of `pat` in the buffer,
`none` when absent. -/
def indexOf (pat : List Char) : List Char → Option Nat
  | [] => if hasPfx pat ([] : List Char) then some 0 else none
  | c :: t => if hasPfx pat (c :: t) then some 0 else (indexOf pat t).map (· + 1)

/-- The `types.Object` sum type, restricted to what the parser produces.
`null` stands for Go's nil `types.Object`.  A `float` keeps its accepted raw
token: no claim inspects a float's numeric value and the parser stores the
IEEE value opaquely. -/
inductive Obj where
  | null
  | boolean (b : Bool)
  | integer (i : Int)
  | float (tok : List Char)
  | name (s : List Char)
  | stringLit (s : List Char)
  | hexLit (s : List Char)
  | array (xs : List Obj)
  | dict (d : List (List Char × Obj))
  | indirectRef (objNr genNr : Int)

instance : Inhabited Obj := ⟨.null⟩

/-- The error values of the parse source.  The `poa…` constructors stand for
the ad-hoc `errors.New` messages of `ParseObjectAttributes`; `atoiSyn`,
`atoiRange` and `floatErr` stand for propagated `strconv` errors;
`outOfFuel` is the embedding's marker for exhausted recursion fuel and is
unreachable for the fuel supplied by the top-level wrappers. -/
inductive PErr where
  | arrayCorrupt
  | arrayNotTerminated
  | dictionaryCorrupt
  | dictionaryDuplicateKey
  | dictionaryNotTerminated
  | hexLiteralCorrupt
  | hexLiteralNotTerminated
  | nameObjectCorrupt
  | noArray
  | noDictionary
  | stringLiteralCorrupt
  | bufNotAvailable
  | xrefStreamMissingW
  | xrefStreamCorruptW
  | xrefStreamCorruptIndex
  | xrefStreamMissingSize
  | objStreamMissingN
  | objStreamMissingFirst
  | poaBufNotAvailable
  | poaMissingObj
  | poaNoObjNr
  | poaNoObjNrEnd
  | poaNoGenNr
  | poaNoGenNrEnd
  | atoiSyn
  | atoiRange
  | floatErr
  | outOfFuel
  deriving DecidableEq, Repr

/-- Map a `strconv` integer error to the propagated parse error. -/
def ofAtoiErr : AtoiErr → PErr
  | .syn => .atoiSyn
  | .range => .atoiRange

/-- The dictionary representation: key/value pairs in first-insertion order. -/
def DictT := List (List Char × Obj)

/-- Modelled from the spec: `types.Dict.Insert` lives outside this source; the
spec fixes its duplicate-key policy as "last write wins silently", so an
existing key is overwritten in place and insertion always reports success. -/
def dictInsert (d : DictT) (k : List Char) (v : Obj) : DictT × Bool :=
  if (List.find? (fun p => p.1 = k) d).isSome then
    (List.map (fun p => if p.1 = k then (k, v) else p) d, true)
  else (List.append d [(k, v)], true)

/-- Key lookup in the modelled dictionary. -/
def dictLookup (d : DictT) (k : List Char) : Option Obj :=
  (List.find? (fun p => p.1 = k) d).map (fun p => p.2)

/-- `parseName`: `'/'`-introduced name, cut off at the next whitespace byte or
byte of `"/<>()[]%"` (whole remaining buffer when the scanner reports `-1`),
then `#xx`-validated.  Returns the raw name bytes and the new cursor. -/
def parseName (line : List Char) : Except PErr (List Char × List Char) :=
  if line = [] then .error .bufNotAvailable
  else if line.length < 2 || line.head? ≠ some '/' then .error .nameObjectCorrupt
  else
    let l := forwardParseBuf line 1
    let eok := (positionToNextWhitespaceOrChar l ['/', '<', '>', '(', ')', '[', ']', '%']).1
    let pr : List Char × List Char :=
      if eok < 0 then (l, []) else (l.take eok.toNat, l.drop eok.toNat)
    if validateNameHexSequence pr.1 then .ok (pr.1, pr.2) else .error .nameObjectCorrupt

/-- `parseStringLiteral`: balanced-parentheses prefix, raw payload between the
enclosing parentheses, cursor just past the closing `')'`. -/
def parseStringLiteral (line : List Char) : Except PErr (Obj × List Char) :=
  if line = [] then .error .bufNotAvailable
  else if line.length < 2 || line.head? ≠ some '(' then .error .stringLiteralCorrupt
  else
    let i := balancedParenthesesSpan line
    if i < 0 then .error .stringLiteralCorrupt
    else
      let balParStr := (line.take i.toNat).drop 1
      .ok (.stringLit balParStr, forwardParseBuf (line.drop i.toNat) 1)

/-- `parseHexLiteral`: `'<'`, raw content up to the first `'>'`, content
trimmed and normalized through `hexString`, cursor past the `'>'`. -/
def parseHexLiteral (line : List Char) : Except PErr (Obj × List Char) :=
  if line = [] then .error .bufNotAvailable
  else if line.length < 2 || line.head? ≠ some '<' then .error .hexLiteralCorrupt
  else
    let l := forwardParseBuf line 1
    match indexOf ['>'] l with
    | none => .error .hexLiteralNotTerminated
    | some eov =>
      match hexString (goTrimSpace (l.take eov)) with
      | none => .error .hexLiteralCorrupt
      | some hs => .ok (.hexLit hs, forwardParseBuf (l.drop eov) 1)

/-- `parseBooleanOrNull`: unconditional prefix match against `null`, `true`,
`false`; returns the value (`Obj.null` for Go's nil) and the matched length. -/
def parseBooleanOrNull (l : List Char) : Option (Obj × Nat) :=
  if hasPfx "null".data l then some (.null, 4)
  else if hasPfx "true".data l then some (.boolean true, 4)
  else if hasPfx "false".data l then some (.boolean false, 5)
  else none

/-- Count of leading `'0'` bytes. -/
def leadingZeros : List Char → Nat
  | '0' :: rest => leadingZeros rest + 1
  | _ => 0

/-- `startParseNumericOrIndRef`: token text (after the malformed-leading-zero
repair), short remainder `l1`, and the separator index `i1`. -/
def startParseNumericOrIndRef (l : List Char) : List Char × List Char × Int :=
  let i1 := (positionToNextWhitespaceOrChar l ['/', '<', '(', '[', ']', '>', '%']).1
  let l1 := if i1 > 0 then l.drop i1.toNat else []
  let str := if i1 > 0 then l.take i1.toNat else l
  let str :=
    if str.length > 1 ∧ str.head? = some '0' then
      if str.get? 1 = some '+' ∨ str.get? 1 = some '-' then str.drop 1
      else if str.get? 1 = some '.' then
        let i := 2 + leadingZeros (str.drop 2)
        if str.length > i ∧ (str.get? i = some '+' ∨ str.get? i = some '-') then str.drop i
        else str
      else str
    else str
  (str, l1, i1)

/-- `parseIndRef`: the tail of the numeric/indirect-reference disambiguation.
`line0` is the value the caller's `*line` holds at entry: the Go code leaves
it untouched on the branches that return without assigning it.  After a
successful `Atoi` of the generation token the local `err` is nil, so the two
`return nil, err` statements in the range-error branches return a nil object
with a nil error: a `Null` success. -/
def parseIndRef (s l l1 line0 : List Char) (i : Int) (i2 : Int) (rangeErr : Bool) :
    Except PErr (Obj × List Char) :=
  match goAtoi s with
  | .error _ => .ok (.integer i, l1)
  | .ok g =>
    let l2 := (trimLeftSpace (l.drop i2.toNat) false).1
    if l2 = [] then
      if rangeErr then .ok (.null, line0)
      else .ok (.integer i, l1)
    else if l2.head? = some 'R' then
      if rangeErr then .ok (.null, forwardParseBuf l2 1)
      else .ok (.indirectRef i g, forwardParseBuf l2 1)
    else if rangeErr then .ok (.null, line0)
    else .ok (.integer i, l1)

/-- `parseFloat`: accept the token as a Float or surface the float error. -/
def parseFloat (s : List Char) : Except PErr Obj :=
  if goParseFloatOk s then .ok (.float s) else .error .floatErr

/-- `parseNumericOrIndRef`: integer, float, or `int int R` indirect-reference
lookahead with the short remainder `l1` as the fallback cursor; an integer
range error is carried through the lookahead (`rangeErr`, with `i = 0`). -/
def parseNumericOrIndRef (line : List Char) : Except PErr (Obj × List Char) :=
  if line = [] then .error .bufNotAvailable
  else
    let l := line
    let t := startParseNumericOrIndRef l
    let s := t.1
    let l1 := t.2.1
    let i1 := t.2.2
    let step : Int → Bool → AtoiErr → Except PErr (Obj × List Char) := fun i rangeErr e =>
      if i1 ≤ 0 || delimiter ((l.drop i1.toNat).headD '\x00') then
        if rangeErr then .error (ofAtoiErr e)
        else .ok (.integer i, l1)
      else
        let lA := (trimLeftSpace (l.drop i1.toNat) false).1
        if lA = [] then
          if rangeErr then .error (ofAtoiErr e)
          else .ok (.integer i, l1)
        else
          let i2 := (positionToNextWhitespaceOrChar lA ['/', '<', '(', '[', ']', '>']).1
          if i2 ≤ 0 || delimiter ((lA.drop i2.toNat).headD '\x00') then
            if rangeErr then .error (ofAtoiErr e)
            else .ok (.integer i, l1)
          else
            let s2 := if i2 > 0 then lA.take i2.toNat else lA
            parseIndRef s2 lA l1 line i i2 rangeErr
    match goAtoi s with
    | .error e =>
      if e ≠ .range then
        match parseFloat s with
        | .ok v => .ok (v, l1)
        | .error fe => .error fe
      else step 0 true e
    | .ok i => step i false .range

mutual

/-- `ParseObject`: skip whitespace and comments, dispatch on the first byte.
`fuel` bounds the recursion depth and loop iterations of the composite
parsers; every recursive call consumes at least one byte of input first, so
the top-level wrapper's fuel is never exhausted. -/
def ParseObjectF : Nat → List Char → Except PErr (Obj × List Char)
  | 0, _ => .error .outOfFuel
  | fuel + 1, line =>
    if line = [] then .error .bufNotAvailable
    else
      match (trimLeftSpace line false).1 with
      | [] => .error .bufNotAvailable
      | c :: rest =>
        let l := c :: rest
        if c = '[' then
          match parseArrayF fuel l with
          | .error e => .error e
          | .ok (a, l') => .ok (.array a, l')
        else if c = '/' then
          match parseName l with
          | .error e => .error e
          | .ok (nm, l') => .ok (.name nm, l')
        else if c = '<' then
          match parseHexLiteralOrDictF fuel l with
          | .error e => .error e
          | .ok r => .ok r
        else if c = '(' then
          match parseStringLiteral l with
          | .error e => .error e
          | .ok r => .ok r
        else
          match parseBooleanOrNull l with
          | some (v, n) => .ok (v, forwardParseBuf l n)
          | none => parseNumericOrIndRef l

/-- `parseArray`: `'['`, whitespace, then objects until `']'`. -/
def parseArrayF : Nat → List Char → Except PErr (List Obj × List Char)
  | 0, _ => .error .outOfFuel
  | fuel + 1, line =>
    if line = [] then .error .noArray
    else if ¬ hasPfx ['['] line then .error .arrayCorrupt
    else if line.length = 1 then .error .arrayNotTerminated
    else
      let l := (trimLeftSpace (forwardParseBuf line 1) false).1
      if l = [] then .error .arrayNotTerminated
      else parseArrayLoopF fuel [] l

/-- The entry loop of `parseArray`. -/
def parseArrayLoopF : Nat → List Obj → List Char → Except PErr (List Obj × List Char)
  | 0, _, _ => .error .outOfFuel
  | fuel + 1, acc, l =>
    if hasPfx [']'] l then .ok (acc, forwardParseBuf l 1)
    else
      match ParseObjectF fuel l with
      | .error e => .error e
      | .ok (obj, l') =>
        if l' = [] then .error .arrayNotTerminated
        else
          let l'' := (trimLeftSpace l' false).1
          if l'' = [] then .error .arrayNotTerminated
          else parseArrayLoopF fuel (acc ++ [obj]) l''

/-- The key/value loop of `processDictKeys`.  The duplicate-key error branch
is kept from the source (the relaxed missing-value path checks the insert
result), but the modelled `dictInsert` always reports success, so it is
unreachable; the non-relaxed insert discards the result, its error branch
being commented out in the source. -/
def processDictKeysLoopF : Nat → DictT → List Char → Bool → Except PErr (DictT × List Char)
  | 0, _, _, _ => .error .outOfFuel
  | fuel + 1, d, l, relaxed =>
    if hasPfx ['>', '>'] l then .ok (d, l)
    else
      match parseName l with
      | .error e => .error e
      | .ok (key, l₁) =>
        let pr := trimLeftSpace l₁ relaxed
        if pr.1 = [] then .error .dictionaryNotTerminated
        else if pr.2 then
          let ins := dictInsert d key (.stringLit [])
          if !ins.2 then .error .dictionaryDuplicateKey
          else processDictKeysLoopF fuel ins.1 pr.1 relaxed
        else
          match ParseObjectF fuel pr.1 with
          | .error e => .error e
          | .ok (obj, l₂) =>
            let d' := match obj with
              | .null => d
              | _ => (dictInsert d key obj).1
            if l₂ = [] then .error .dictionaryNotTerminated
            else
              let l₃ := (trimLeftSpace l₂ false).1
              if l₃ = [] then .error .dictionaryNotTerminated
              else processDictKeysLoopF fuel d' l₃ relaxed

/-- `parseDict`: `'<<'`, whitespace, the key loop, then past `'>>'`.  On
failure the caller's cursor is untouched: the source assigns `*line` only
after the loop returns. -/
def parseDictF : Nat → List Char → Bool → Except PErr (DictT × List Char)
  | 0, _, _ => .error .outOfFuel
  | fuel + 1, line, relaxed =>
    if line = [] then .error .noDictionary
    else if line.length < 4 || ¬ hasPfx ['<', '<'] line then .error .dictionaryCorrupt
    else
      let l := (trimLeftSpace (forwardParseBuf line 2) false).1
      if l = [] then .error .dictionaryNotTerminated
      else
        match processDictKeysLoopF fuel [] l relaxed with
        | .error e => .error e
        | .ok (d, l') => .ok (d, forwardParseBuf l' 2)

/-- `parseHexLiteralOrDict`: two-attempt dictionary parse (strict first, then
relaxed over the same original cursor) when the second byte is `'<'`, a hex
literal otherwise. -/
def parseHexLiteralOrDictF : Nat → List Char → Except PErr (Obj × List Char)
  | 0, _ => .error .outOfFuel
  | fuel + 1, l =>
    if l.length < 2 then .error .bufNotAvailable
    else if l.get? 1 = some '<' then
      match parseDictF fuel l false with
      | .ok (d, l') => .ok (.dict d, l')
      | .error _ =>
        match parseDictF fuel l true with
        | .ok (d, l') => .ok (.dict d, l')
        | .error e => .error e
    else parseHexLiteral l

end

/-- Fuel that the nesting of any buffer can never exhaust (each unit of depth
or loop progress consumes at least one input byte). -/
def defaultFuel (line : List Char) : Nat := 4 * line.length + 4

/-- The top-level `ParseObject` entry point. -/
def ParseObjectTop (line : List Char) : Except PErr (Obj × List Char) :=
  ParseObjectF (defaultFuel line) line

/-- `processDictKeys` as in the source: fresh dictionary, then the key loop. -/
def processDictKeysF (fuel : Nat) (l : List Char) (relaxed : Bool) :
    Except PErr (DictT × List Char) :=
  processDictKeysLoopF fuel [] l relaxed

/-- `ParseObjectAttributes`: find the first `"obj"`, parse the object and
generation numbers from the text before it, return them with the cursor set
to the text after `"obj"`. -/
def ParseObjectAttributes (line : List Char) : Except PErr (Int × Int × List Char) :=
  if line = [] then .error .poaBufNotAvailable
  else
    match indexOf "obj".data line with
    | none => .error .poaMissingObj
    | some idx =>
      let remainder := line.drop (idx + 3)
      let l := (trimLeftSpace (line.take idx) false).1
      if l = [] then .error .poaNoObjNr
      else
        let i := (positionToNextWhitespaceOrChar l ['%']).1
        if i ≤ 0 then .error .poaNoObjNrEnd
        else
          match goAtoi (l.take i.toNat) with
          | .error e => .error (ofAtoiErr e)
          | .ok objNr =>
            let l₂ := (trimLeftSpace (l.drop i.toNat) false).1
            if l₂ = [] then .error .poaNoGenNr
            else
              let i₂ := (positionToNextWhitespaceOrChar l₂ ['%']).1
              if i₂ ≤ 0 then .error .poaNoGenNrEnd
              else
                match goAtoi (l₂.take i₂.toNat) with
                | .error e => .error (ofAtoiErr e)
                | .ok genNr => .ok (objNr, genNr, remainder)

/-- Modelled from the spec: the `types.StreamDict` accessors `Size()`, `W()`,
`Index()`, `Prev()` live in the types package outside this source; per the
spec they return the named dictionary entry when present (`none` for Go's
nil). -/
structure StreamDict where
  size : Option Int
  w : Option (List Obj)
  index : Option (List Obj)
  prev : Option Int

/-- The cross-reference-stream descriptor built by `createXRefStreamDict`. -/
structure XRefStreamDict where
  size : Int
  objects : List Int
  w : List Int
  previousOffset : Option Int

/-- `createXRefStreamDict`: validate `W` as an array of exactly three
non-negative integers (a failed type assertion yields the zero Integer, so
the combined check is "is an Integer with value ≥ 0"). -/
def createXRefStreamDict (sd : StreamDict) (objs : List Int) : Except PErr XRefStreamDict :=
  match sd.w with
  | none => .error .xrefStreamMissingW
  | some a =>
    if a.length ≠ 3 then .error .xrefStreamCorruptW
    else
      match a.get? 0, a.get? 1, a.get? 2 with
      | some (.integer i1), some (.integer i2), some (.integer i3) =>
        if i1 < 0 || i2 < 0 || i3 < 0 then .error .xrefStreamCorruptW
        else .ok { size := sd.size.getD 0, objects := objs, w := [i1, i2, i3],
                   previousOffset := sd.prev }
      | _, _, _ => .error .xrefStreamCorruptW

/-- The object numbers of one `(start, count)` run. -/
def xrefRun (start count : Int) : List Int :=
  (List.range count.toNat).map (fun j => start + j)

/-- The pair loop over the `Index` array: Go iterates `i < len/2`, so a
trailing element of an odd-length array is never visited. -/
def xrefIndexObjs : List Obj → Except PErr (List Int)
  | .integer start :: .integer count :: rest =>
    match xrefIndexObjs rest with
    | .error e => .error e
    | .ok objs => .ok (xrefRun start count ++ objs)
  | _ :: _ :: _ => .error .xrefStreamCorruptIndex
  | _ => .ok []

/-- `ParseXRefStreamDict`: requires `Size`; reads the optional `Index` (note
the guard `len(indArr) % 2 > 1` of the source, which no length satisfies);
defaults the object set to `[0 .. Size-1]`; then validates `W`. -/
def ParseXRefStreamDict (sd : StreamDict) : Except PErr XRefStreamDict :=
  match sd.size with
  | none => .error .xrefStreamMissingSize
  | some size =>
    let objsE : Except PErr (List Int) :=
      match sd.index with
      | some indArr =>
        if indArr.length % 2 > 1 then .error .xrefStreamCorruptIndex
        else xrefIndexObjs (indArr.take (indArr.length / 2 * 2))
      | none => .ok ((List.range size.toNat).map (fun i => (i : Int)))
    match objsE with
    | .error e => .error e
    | .ok objs => createXRefStreamDict sd objs

/-! ## Supporting definitions for the claim theorems -/

/-- A stream dictionary with `Size` present, a well-formed `W`, and an
odd-length all-integer `Index` array. -/
def c1StreamDict : StreamDict :=
  { size := some 5, w := some [.integer 1, .integer 2, .integer 2],
    index := some [.integer 0, .integer 1, .integer 5], prev := none }

/-- A byte `hexString` accepts: a hexadecimal digit of either case, or one of
the five mid-literal whitespace bytes space, tab, LF, FF, CR. -/
def hexContentByte (c : Char) : Bool :=
  isUpperHex (hexUpper c) || hexStringWs c

/-- The whitespace-trimmed buffer after the first numeric token (`lA` in the
numeric/indirect-reference lookahead). -/
def indRefTok2Src (l : List Char) : List Char :=
  (trimLeftSpace (l.drop (startParseNumericOrIndRef l).2.2.toNat) false).1

/-- The separator index after the candidate generation-number token (`i2`). -/
def indRefI2 (l : List Char) : Int :=
  (positionToNextWhitespaceOrChar (indRefTok2Src l) ['/', '<', '(', '[', ']', '>']).1

/-- The candidate generation-number token. -/
def indRefTok2 (l : List Char) : List Char :=
  (indRefTok2Src l).take (indRefI2 l).toNat

/-- The whitespace-trimmed buffer after the generation token (`lB`), whose
head must be `'R'` for an indirect reference. -/
def indRefAfter2 (l : List Char) : List Char :=
  (trimLeftSpace ((indRefTok2Src l).drop (indRefI2 l).toNat) false).1

/-- The generation number of the indirect-reference shape. -/
def indRefGen (l : List Char) : Int :=
  match goAtoi (indRefTok2 l) with
  | .ok g => g
  | .error _ => 0

/-- The cursor just past the `'R'` of the indirect-reference shape. -/
def indRefRest (l : List Char) : List Char :=
  forwardParseBuf (indRefAfter2 l) 1

/-- The three-token indirect-reference shape of the claim: the first numeric
token is followed — separated by the whitespace/comment skipper, not by a
delimiter byte — by a second token that parses as an integer, and then, after
further whitespace, by the byte `'R'`. -/
def indRefShape (l : List Char) : Bool :=
  let i1 := (startParseNumericOrIndRef l).2.2
  if i1 ≤ 0 || delimiter ((l.drop i1.toNat).headD '\x00') then false
  else if indRefTok2Src l = [] then false
  else if indRefI2 l ≤ 0 || delimiter (((indRefTok2Src l).drop (indRefI2 l).toNat).headD '\x00') then
    false
  else
    match goAtoi (indRefTok2 l) with
    | .error _ => false
    | .ok _ => decide ((indRefAfter2 l).head? = some 'R')

/-- Whether a parse error is the `DictionaryDuplicateKey` error. -/
def dupErr : PErr → Bool
  | .dictionaryDuplicateKey => true
  | _ => false

/-- Whether a parse outcome is the `DictionaryDuplicateKey` error. -/
def isDupKeyErr {α : Type} : Except PErr α → Bool
  | .error e => dupErr e
  | .ok _ => false

/-! ## Claim C1 -/

/-- C1: the claim states that `ParseXRefStreamDict` fails with the
`XRefStreamCorruptIndex` error whenever `Index` is an odd-length array of
integers.  The source's guard is `len(indArr) % 2 > 1`, which no length
satisfies, so the call instead succeeds, silently ignoring the trailing
element: here `Index = [0, 1, 5]` yields the object set `[0]`. -/
theorem claim1_odd_index_accepted :
    ParseXRefStreamDict c1StreamDict =
      .ok { size := 5, objects := [0], w := [1, 2, 2], previousOffset := none } := rfl

/-! ## Claim C10 -/

/-- C10 counterexample: the claim says every buffer of length < 2 makes
`parseName` fail with the `CorruptName` error, but on the empty buffer the
source returns `errBufNotAvailable` before the length check. -/
theorem claim10_counterexample :
    parseName ([] : List Char) = .error .bufNotAvailable ∧
      PErr.bufNotAvailable ≠ PErr.nameObjectCorrupt :=
  ⟨rfl, by decide⟩

/-- C10 amended: every nonempty buffer of length < 2 — any single byte, in
particular a `'/'` at the very end of the buffer, also when reached through
the object dispatcher — makes `parseName` fail with the `CorruptName` error;
the empty buffer fails with `BufNotAvailable` instead; and a name of length
≥ 1 terminated by end of buffer is accepted as the terminal case. -/
theorem claim10_amended :
    (∀ c : Char, parseName [c] = .error .nameObjectCorrupt) ∧
      parseName ([] : List Char) = .error .bufNotAvailable ∧
      (∀ fuel : Nat, ParseObjectF (fuel + 1) ['/'] = .error .nameObjectCorrupt) ∧
      parseName "/A".data = .ok ("A".data, []) :=
  ⟨fun _ => rfl, rfl, fun _ => rfl, rfl⟩

/-! ## Claim C4 -/

theorem hexUpper_ws (c : Char) : hexStringWs (hexUpper c) = hexStringWs c := by
  unfold hexUpper
  split_ifs <;> first | rfl | (subst_vars; decide)

theorem upperHex_not_ws (u : Char) (h : isUpperHex u = true) : hexStringWs u = false := by
  cases hw : hexStringWs u
  · rfl
  · exfalso
    unfold hexStringWs at hw
    simp only [Bool.or_eq_true, decide_eq_true_eq] at hw
    rcases hw with (((rfl | rfl) | rfl) | rfl) | rfl <;> simp [isUpperHex] at h

theorem hexStringAux_isSome (t : List Char) :
    ∀ i, t.all hexContentByte = true → (hexStringAux t i).isSome = true := by
  induction t with
  | nil => intro i _; simp [hexStringAux]
  | cons c rest ih =>
    intro i hall
    simp only [List.all_cons, Bool.and_eq_true] at hall
    unfold hexStringAux
    by_cases hws : hexStringWs (hexUpper c) = true
    · simp only [hws, if_true]
      by_cases hi : i % 2 = 1 <;>
        simp [hi, Option.isSome_map, ih _ hall.2]
    · have hwc : hexStringWs c = false := by rw [← hexUpper_ws]; simpa using hws
      have hhex : isUpperHex (hexUpper c) = true := by
        have := hall.1
        unfold hexContentByte at this
        simpa [hwc] using this
      simp [hws, hhex, Option.isSome_map, ih _ hall.2]

theorem hexStringAux_allHex (t : List Char) :
    ∀ i, (t.all fun c => isUpperHex (hexUpper c)) = true →
      hexStringAux t i =
        some (t.map hexUpper ++ if (i + t.length) % 2 = 1 then ['0'] else []) := by
  induction t with
  | nil => intro i _; simp [hexStringAux]
  | cons c rest ih =>
    intro i hall
    simp only [List.all_cons, Bool.and_eq_true] at hall
    have hws : hexStringWs (hexUpper c) = false := upperHex_not_ws _ hall.1
    unfold hexStringAux
    simp only [hws, Bool.false_eq_true, if_false, hall.1, if_true]
    rw [ih _ hall.2]
    simp only [Option.map_some, List.map_cons, List.length_cons]
    have : i + 1 + rest.length = i + (rest.length + 1) := by omega
    rw [this]
    simp [List.cons_append]

theorem hexStringAux_badByte (t : List Char) :
    ∀ i (c : Char), c ∈ t → hexContentByte c = false → hexStringAux t i = none := by
  induction t with
  | nil => intro _ c hc; exact absurd hc (List.not_mem_nil c)
  | cons c0 rest ih =>
    intro i c hc hbad
    unfold hexStringAux
    rcases List.mem_cons.mp hc with rfl | hmem
    · have h1 : isUpperHex (hexUpper c) = false := by
        have := hbad; unfold hexContentByte at this
        exact (Bool.or_eq_false_iff.mp this).1
      have h2 : hexStringWs (hexUpper c) = false := by
        rw [hexUpper_ws]
        have := hbad; unfold hexContentByte at this
        exact (Bool.or_eq_false_iff.mp this).2
      simp [h1, h2]
    · by_cases hws : hexStringWs (hexUpper c0) = true
      · by_cases hi : i % 2 = 1 <;> simp [hws, hi, ih _ _ hmem hbad]
      · by_cases hhex : isUpperHex (hexUpper c0) = true
        · simp [hws, hhex, ih _ _ hmem hbad]
        · simp [hws, hhex]

/-- C4 counterexample: the claim states that whitespace is removed and a
single `'0'` is appended at the end iff the total digit count is odd, which
would turn `"4 14"` into `"4140"`; the source instead inserts the pad at the
whitespace position whenever the digit run before it is odd, yielding
`"4014"`. -/
theorem claim4_counterexample :
    hexString "4 14".data = some ['4', '0', '1', '4'] ∧
      (['4', '0', '1', '4'] : List Char) ≠ ['4', '1', '4', '0'] :=
  ⟨rfl, by decide⟩

/-- C4 amended: content made of hex digits (either case) and the whitespace
bytes space, tab, LF, FF, CR always normalizes successfully; when the content
has no whitespace at all the result is the digits uppercased with a single
`'0'` appended iff the digit count is odd; whitespace is dropped but inserts
a `'0'` pad in place whenever the digit count since the start or the last pad
is odd at that point; any other byte — including NUL and VT, which are not in
the source's mid-literal whitespace set — makes `hexString` fail. -/
theorem claim4_amended :
    (∀ s : List Char, s.all hexContentByte = true → (hexString s).isSome = true) ∧
      (∀ s : List Char, (s.all fun c => isUpperHex (hexUpper c)) = true →
        hexString s = some (s.map hexUpper ++ if s.length % 2 = 1 then ['0'] else [])) ∧
      (∀ (s : List Char) (c : Char), c ∈ s → hexContentByte c = false →
        hexString s = none) := by
  refine ⟨fun s hall => ?_, fun s hall => ?_, fun s c hc hbad => ?_⟩
  · unfold hexString
    split
    · rfl
    · exact hexStringAux_isSome s 0 hall
  · unfold hexString
    split
    · subst_vars; rfl
    · simpa using hexStringAux_allHex s 0 hall
  · unfold hexString
    split
    · subst_vars; exact absurd hc (List.not_mem_nil c)
    · exact hexStringAux_badByte s 0 c hc hbad

/-- C4 witness: the three parts of the amended claim at concrete inputs
`"4a F0"`, `"4aF"`, and `"4x"`. -/
theorem claim4_witness :
    (hexString "4a F0".data).isSome = true ∧
      hexString "4aF".data = some "4AF0".data ∧
      hexString "4x".data = none := by
  refine ⟨claim4_amended.1 _ (by decide), ?_, claim4_amended.2.2 _ 'x' (by decide) (by decide)⟩
  have h := claim4_amended.2.1 "4aF".data (by decide)
  simpa using h

/-! ## Claim C3 -/

theorem parseName_ok_head {l : List Char} {p : List Char × List Char}
    (h : parseName l = .ok p) : l.head? = some '/' := by
  unfold parseName at h
  split at h
  · exact absurd h (by simp)
  · split at h
    · exact absurd h (by simp)
    · rename_i hcond
      simp only [Bool.or_eq_true, decide_eq_true_eq, not_or, not_not] at hcond
      exact hcond.2

theorem not_dictEnd_of_head_slash {l : List Char} (h : l.head? = some '/') :
    hasPfx ['>', '>'] l = false := by
  cases l with
  | nil => simp at h
  | cons c t =>
    simp only [List.head?_cons, Option.some.injEq] at h
    subst h
    rfl

theorem dictInsert_snd (d : DictT) (k : List Char) (v : Obj) :
    (dictInsert d k v).2 = true := by
  unfold dictInsert
  split <;> rfl

/-- C3 counterexample: in relaxed mode, on `"<< /K \n 5 >>"` the claim says
the next meaningful token `5` begins a value, so the value should be parsed
normally, yielding the dictionary mapping `K` to `Integer 5`; the source binds
`K` to an empty string literal purely because an end-of-line was crossed, then
chokes on `5` where a key was expected, failing with `CorruptName`. -/
theorem claim3_counterexample :
    parseDictF 64 "<< /K \x0A 5 >>".data true = .error .nameObjectCorrupt ∧
      Except.error PErr.nameObjectCorrupt ≠
        (.ok (([("K".data, Obj.integer 5)] : DictT), ([] : List Char)) :
          Except PErr (DictT × List Char)) :=
  ⟨rfl, fun h => Except.noConfusion h⟩

/-- C3 amended: in relaxed dictionary mode, whenever at least one end-of-line
is crossed in the whitespace following a key (and input remains), the key is
bound to an empty StringLiteral and the loop continues with the next key —
regardless of whether the next meaningful token would begin a value; only when
no end-of-line was seen is the value parsed via the object dispatcher. -/
theorem claim3_amended :
    (∀ (fuel : Nat) (d : DictT) (l key l₁ l₂ : List Char),
        parseName l = .ok (key, l₁) →
        trimLeftSpace l₁ true = (l₂, true) →
        l₂ ≠ [] →
        processDictKeysLoopF (fuel + 1) d l true =
          processDictKeysLoopF fuel (dictInsert d key (.stringLit [])).1 l₂ true) ∧
      (∀ (fuel : Nat) (d : DictT) (relaxed : Bool) (l key l₁ l₂ l₃ : List Char) (obj : Obj),
        parseName l = .ok (key, l₁) →
        trimLeftSpace l₁ relaxed = (l₂, false) →
        l₂ ≠ [] →
        ParseObjectF fuel l₂ = .ok (obj, l₃) →
        obj ≠ .null →
        l₃ ≠ [] →
        (trimLeftSpace l₃ false).1 ≠ [] →
        processDictKeysLoopF (fuel + 1) d l relaxed =
          processDictKeysLoopF fuel (dictInsert d key obj).1 (trimLeftSpace l₃ false).1
            relaxed) := by
  constructor
  · intro fuel d l key l₁ l₂ hname htrim hne
    have hhead := parseName_ok_head hname
    simp only [processDictKeysLoopF, not_dictEnd_of_head_slash hhead, Bool.false_eq_true,
      if_false, hname, htrim, hne, dictInsert_snd, Bool.not_true]
    simp [hne]
  · intro fuel d relaxed l key l₁ l₂ l₃ obj hname htrim hne hobj hnull hne3 hne4
    have hhead := parseName_ok_head hname
    simp only [processDictKeysLoopF, not_dictEnd_of_head_slash hhead, Bool.false_eq_true,
      if_false, hname, htrim, hobj]
    have harm : (match obj with
        | Obj.null => d
        | _ => (dictInsert d key obj).1) = (dictInsert d key obj).1 := by
      cases obj <;> first | exact absurd rfl hnull | rfl
    simp [hne, hne3, hne4, harm]

/-- C3 witness: the eol branch of the amended claim taken on the concrete
input of the counterexample, with the value-starting token `5` ahead. -/
theorem claim3_witness :
    processDictKeysLoopF 21 [] "/K \x0A 5 >>".data true =
      processDictKeysLoopF 20 (dictInsert [] "K".data (.stringLit [])).1 "5 >>".data true :=
  claim3_amended.1 20 [] "/K \x0A 5 >>".data "K".data " \x0A 5 >>".data "5 >>".data
    rfl rfl (by decide)

/-! ## Claim C2 -/

theorem dictLookup_map_replace (k : List Char) (v : Obj) :
    ∀ d : List (List Char × Obj),
      (List.find? (fun p => p.1 = k) d).isSome = true →
      dictLookup (List.map (fun p => if p.1 = k then (k, v) else p) d) k = some v := by
  intro d
  induction d with
  | nil => intro h; simp [List.find?] at h
  | cons a d ih =>
    intro h
    by_cases hak : a.1 = k
    · simp [dictLookup, List.find?, hak]
    · have h' : (List.find? (fun p => p.1 = k) d).isSome = true := by
        rw [List.find?] at h
        simpa [hak] using h
      have := ih h'
      simp only [List.map_cons, if_neg hak]
      unfold dictLookup at this ⊢
      rw [List.find?]
      simpa [hak] using this

theorem dictLookup_append_single (k : List Char) (v : Obj) :
    ∀ d : List (List Char × Obj),
      (List.find? (fun p => p.1 = k) d).isSome = false →
      dictLookup (d ++ [(k, v)]) k = some v := by
  intro d
  induction d with
  | nil => intro _; simp [dictLookup, List.find?]
  | cons a d ih =>
    intro h
    by_cases hak : a.1 = k
    · rw [List.find?] at h
      simp [hak] at h
    · have h' : (List.find? (fun p => p.1 = k) d).isSome = false := by
        rw [List.find?] at h
        simpa [hak] using h
      have := ih h'
      unfold dictLookup at this ⊢
      rw [List.cons_append, List.find?]
      simpa [hak] using this

theorem dictInsert_lookup (d : DictT) (k : List Char) (v : Obj) :
    dictLookup (dictInsert d k v).1 k = some v := by
  unfold dictInsert
  split
  · next h => exact dictLookup_map_replace k v d h
  · next h =>
    exact dictLookup_append_single k v d (by simp only [Bool.not_eq_true] at h; exact h)

theorem parseName_noDup (l : List Char) : isDupKeyErr (parseName l) = false := by
  unfold parseName
  dsimp only
  split
  · rfl
  · split
    · rfl
    · split <;> split <;> rfl

theorem parseStringLiteral_noDup (l : List Char) :
    isDupKeyErr (parseStringLiteral l) = false := by
  unfold parseStringLiteral
  dsimp only
  split
  · rfl
  · split
    · rfl
    · split <;> rfl

theorem parseHexLiteral_noDup (l : List Char) :
    isDupKeyErr (parseHexLiteral l) = false := by
  unfold parseHexLiteral
  dsimp only
  split
  · rfl
  · split
    · rfl
    · split
      · rfl
      · split <;> rfl

theorem parseIndRef_noDup (s l l1 line0 : List Char) (i i2 : Int) (r : Bool) :
    isDupKeyErr (parseIndRef s l l1 line0 i i2 r) = false := by
  unfold parseIndRef
  dsimp only
  split
  · rfl
  · split
    · split <;> rfl
    · split
      · split <;> rfl
      · split <;> rfl

theorem dupErr_ofAtoiErr (a : AtoiErr) : dupErr (ofAtoiErr a) = false := by
  cases a <;> rfl

theorem parseFloat_err {s : List Char} {e : PErr} (h : parseFloat s = .error e) :
    e = .floatErr := by
  unfold parseFloat at h
  split at h
  · cases h
  · cases h; rfl

theorem parseNumericOrIndRef_noDup (l : List Char) :
    isDupKeyErr (parseNumericOrIndRef l) = false := by
  unfold parseNumericOrIndRef
  dsimp only
  repeat' split
  all_goals first
    | rfl
    | exact dupErr_ofAtoiErr _
    | apply parseIndRef_noDup
    | (rename_i hfe; rw [parseFloat_err hfe]; rfl)

/-- No parser ever produces the `DictionaryDuplicateKey` error: the relaxed
missing-value branch checks the insert result, but the modelled insert always
reports success, and the error branch of the main insert is commented out in
the source. -/
theorem noDupKeyErr (fuel : Nat) :
    (∀ l, isDupKeyErr (ParseObjectF fuel l) = false) ∧
      (∀ l, isDupKeyErr (parseArrayF fuel l) = false) ∧
      (∀ acc l, isDupKeyErr (parseArrayLoopF fuel acc l) = false) ∧
      (∀ d l r, isDupKeyErr (processDictKeysLoopF fuel d l r) = false) ∧
      (∀ l r, isDupKeyErr (parseDictF fuel l r) = false) ∧
      (∀ l, isDupKeyErr (parseHexLiteralOrDictF fuel l) = false) := by
  induction fuel with
  | zero =>
    exact ⟨fun _ => rfl, fun _ => rfl, fun _ _ => rfl, fun _ _ _ => rfl,
      fun _ _ => rfl, fun _ => rfl⟩
  | succ n ih =>
    obtain ⟨ihO, ihA, ihAL, ihDK, ihD, ihHD⟩ := ih
    refine ⟨fun l => ?_, fun l => ?_, fun acc l => ?_, fun d l r => ?_,
      fun l r => ?_, fun l => ?_⟩
    · unfold ParseObjectF
      dsimp only
      split
      · rfl
      · split
        · rfl
        · rename_i c rest heqmatch
          split
          · cases h : parseArrayF n (c :: rest) with
            | error e =>
              simp only [h]
              have := ihA (c :: rest); rw [h] at this; exact this
            | ok p => obtain ⟨a, l'⟩ := p; simp only [h]; rfl
          · split
            · cases h : parseName (c :: rest) with
              | error e =>
                simp only [h]
                have := parseName_noDup (c :: rest); rw [h] at this; exact this
              | ok p => obtain ⟨nm, l'⟩ := p; simp only [h]; rfl
            · split
              · cases h : parseHexLiteralOrDictF n (c :: rest) with
                | error e =>
                  simp only [h]
                  have := ihHD (c :: rest); rw [h] at this; exact this
                | ok p => simp only [h]; rfl
              · split
                · cases h : parseStringLiteral (c :: rest) with
                  | error e =>
                    simp only [h]
                    have := parseStringLiteral_noDup (c :: rest); rw [h] at this; exact this
                  | ok p => simp only [h]; rfl
                · cases hb : parseBooleanOrNull (c :: rest) with
                  | some p => obtain ⟨v, m⟩ := p; simp only [hb]; rfl
                  | none => simp only [hb]; exact parseNumericOrIndRef_noDup (c :: rest)
    · unfold parseArrayF
      dsimp only
      split
      · rfl
      · split
        · rfl
        · split
          · rfl
          · split
            · rfl
            · exact ihAL [] _
    · unfold parseArrayLoopF
      dsimp only
      split
      · rfl
      · cases h : ParseObjectF n l with
        | error e =>
          simp only [h]
          have := ihO l; rw [h] at this; exact this
        | ok p =>
          obtain ⟨obj, l'⟩ := p
          simp only [h]
          split
          · rfl
          · split
            · rfl
            · exact ihAL _ _
    · unfold processDictKeysLoopF
      dsimp only
      split
      · rfl
      · cases h : parseName l with
        | error e =>
          simp only [h]
          have := parseName_noDup l; rw [h] at this; exact this
        | ok p =>
          obtain ⟨key, l₁⟩ := p
          simp only [h]
          split
          · rfl
          · split
            · rw [dictInsert_snd]
              simp only [Bool.not_true, Bool.false_eq_true, if_false]
              exact ihDK _ _ _
            · cases h2 : ParseObjectF n (trimLeftSpace l₁ r).1 with
              | error e =>
                simp only [h2]
                have := ihO (trimLeftSpace l₁ r).1; rw [h2] at this; exact this
              | ok q =>
                obtain ⟨obj, l₂⟩ := q
                simp only [h2]
                split
                · rfl
                · split
                  · rfl
                  · exact ihDK _ _ _
    · unfold parseDictF
      dsimp only
      split
      · rfl
      · split
        · rfl
        · split
          · rfl
          · cases h : processDictKeysLoopF n [] (trimLeftSpace (forwardParseBuf l 2) false).1 r with
            | error e =>
              simp only [h]
              have := ihDK [] (trimLeftSpace (forwardParseBuf l 2) false).1 r
              rw [h] at this; exact this
            | ok p => obtain ⟨d, l'⟩ := p; simp only [h]; rfl
    · unfold parseHexLiteralOrDictF
      split
      · rfl
      · split
        · cases h : parseDictF n l false with
          | ok p => obtain ⟨d, l'⟩ := p; simp only [h]; rfl
          | error e =>
            simp only [h]
            cases h2 : parseDictF n l true with
            | ok p => obtain ⟨d, l'⟩ := p; simp only [h2]; rfl
            | error e2 =>
              simp only [h2]
              have := ihD l true; rw [h2] at this; exact this
        · exact parseHexLiteral_noDup l

/-- C2: no parse in any mode ever returns the `DictionaryDuplicateKey` error,
a repeated key is overwritten in place so lookup yields the value of its last
insertion, and the concrete scenario of the claim: the dictionary
`"<< /K (v) /K (w) >>"` parses to a mapping of `K` to `StringLiteral "w"`.
Here `dictInsert` is the spec-modelled last-write-wins insert of the external
`types.Dict`. -/
theorem claim2_duplicate_keys :
    (∀ (fuel : Nat) (l : List Char) (relaxed : Bool),
        isDupKeyErr (parseDictF fuel l relaxed) = false) ∧
      (∀ (fuel : Nat) (l : List Char), isDupKeyErr (ParseObjectF fuel l) = false) ∧
      (∀ (d : DictT) (k : List Char) (v : Obj),
        dictLookup (dictInsert d k v).1 k = some v) ∧
      ParseObjectTop "<< /K (v) /K (w) >>".data =
        .ok (.dict [("K".data, .stringLit "w".data)], []) :=
  ⟨fun fuel l r => (noDupKeyErr fuel).2.2.2.2.1 l r,
   fun fuel l => (noDupKeyErr fuel).1 l,
   dictInsert_lookup, rfl⟩

/-! ## Claim C8 -/

/-- C8: when the dispatcher meets the prefix `"<<"` it first attempts the
dictionary parse with relaxed = false; if that attempt fails, the outcome is
exactly that of a second attempt with relaxed = true applied to the very same
original cursor `l` — the embedding of `parseDict` yields a cursor only on
success, mirroring the source, which assigns `*line` only after the key loop
returns, so a failed first attempt leaves the caller's cursor untouched.  The
closing conjuncts show the retry live on `"<< /A \n /B (x) >>"`: the strict
attempt fails with `CorruptName`, yet the full parse succeeds relaxed. -/
theorem claim8_two_attempt :
    (∀ (fuel : Nat) (l : List Char) (e : PErr),
        2 ≤ l.length →
        l.get? 1 = some '<' →
        parseDictF fuel l false = .error e →
        parseHexLiteralOrDictF (fuel + 1) l =
          match parseDictF fuel l true with
          | .ok (d, l') => .ok (.dict d, l')
          | .error e2 => .error e2) ∧
      parseDictF 63 "<< /A \x0A /B (x) >>".data false = .error .nameObjectCorrupt ∧
      ParseObjectTop "<< /A \x0A /B (x) >>".data =
        .ok (.dict [("A".data, .stringLit []), ("B".data, .stringLit "x".data)], []) := by
  refine ⟨fun fuel l e hlen hlt hfail => ?_, rfl, rfl⟩
  unfold parseHexLiteralOrDictF
  rw [if_neg (by omega), if_pos hlt, hfail]

/-- C8 witness: the general retry equation applied at the concrete input of
the conjuncts, with the failing strict attempt discharged by evaluation. -/
theorem claim8_witness :
    parseHexLiteralOrDictF 64 "<< /A \x0A /B (x) >>".data =
      match parseDictF 63 "<< /A \x0A /B (x) >>".data true with
      | .ok (d, l') => .ok (.dict d, l')
      | .error e2 => .error e2 :=
  claim8_two_attempt.1 63 "<< /A \x0A /B (x) >>".data .nameObjectCorrupt
    (by decide) rfl rfl


/-! ## Claims C5 and C6 -/

theorem parseNumericOrIndRef_int (l : List Char) (i : Int)
    (h : goAtoi (startParseNumericOrIndRef l).1 = .ok i) :
    parseNumericOrIndRef l =
      if indRefShape l then .ok (.indirectRef i (indRefGen l), indRefRest l)
      else .ok (.integer i, (startParseNumericOrIndRef l).2.1) := by
  have hl : l ≠ [] := by
    intro he; subst he
    simp [startParseNumericOrIndRef, positionToNextWhitespaceOrChar, goAtoi] at h
  unfold parseNumericOrIndRef
  rw [if_neg hl]
  dsimp only
  rw [h]
  unfold indRefShape indRefRest indRefGen indRefAfter2 indRefTok2 indRefI2 indRefTok2Src
  dsimp only
  set i1 : Int := (startParseNumericOrIndRef l).2.2 with hi1
  set l1 : List Char := (startParseNumericOrIndRef l).2.1 with hl1
  set lA : List Char := (trimLeftSpace (List.drop i1.toNat l) false).1 with hlA
  set i2 : Int := (positionToNextWhitespaceOrChar lA ['/', '<', '(', '[', ']', '>']).1 with hi2
  by_cases hc1 : (decide (i1 ≤ 0) || delimiter ((List.drop i1.toNat l).headD '\x00')) = true
  · rw [if_pos hc1, if_pos hc1]
    simp
  · rw [if_neg hc1, if_neg hc1]
    by_cases hc2 : lA = []
    · rw [if_pos hc2, if_pos hc2]
      simp
    · rw [if_neg hc2, if_neg hc2]
      by_cases hc3 : (decide (i2 ≤ 0) || delimiter ((List.drop i2.toNat lA).headD '\x00')) = true
      · rw [if_pos hc3, if_pos hc3]
        simp
      · rw [if_neg hc3, if_neg hc3]
        have hpos2 : 0 < i2 := by
          have h1 := (Bool.or_eq_false_iff.mp ((Bool.not_eq_true _).mp hc3)).1
          have h2 := of_decide_eq_false h1
          omega
        rw [if_pos hpos2]
        unfold parseIndRef
        cases hg : goAtoi (List.take i2.toNat lA) with
        | error eg =>
          simp only [hg]
          simp
        | ok g =>
          simp only [hg]
          by_cases hc4 : (trimLeftSpace (List.drop i2.toNat lA) false).1 = []
          · rw [if_pos hc4]
            simp [hc4]
          · rw [if_neg hc4]
            by_cases hc5 : (trimLeftSpace (List.drop i2.toNat lA) false).1.head? = some 'R'
            · rw [if_pos hc5]
              simp [hc5]
            · rw [if_neg hc5]
              simp [hc5]

theorem parseNumericOrIndRef_range (l : List Char)
    (h : goAtoi (startParseNumericOrIndRef l).1 = .error .range)
    (hs : indRefShape l = true) :
    parseNumericOrIndRef l = .ok (.null, indRefRest l) := by
  have hl : l ≠ [] := by
    intro he; subst he
    simp [startParseNumericOrIndRef, positionToNextWhitespaceOrChar, goAtoi] at h
  unfold parseNumericOrIndRef
  rw [if_neg hl]
  dsimp only
  rw [h]
  dsimp only
  rw [if_neg (show ¬(AtoiErr.range ≠ AtoiErr.range) from fun hc => hc rfl)]
  unfold indRefShape indRefAfter2 indRefTok2 indRefI2 indRefTok2Src at hs
  unfold indRefRest indRefAfter2 indRefI2 indRefTok2Src
  dsimp only at hs ⊢
  set i1 : Int := (startParseNumericOrIndRef l).2.2 with hi1
  set l1 : List Char := (startParseNumericOrIndRef l).2.1 with hl1
  set lA : List Char := (trimLeftSpace (List.drop i1.toNat l) false).1 with hlA
  set i2 : Int := (positionToNextWhitespaceOrChar lA ['/', '<', '(', '[', ']', '>']).1 with hi2
  by_cases hc1 : (decide (i1 ≤ 0) || delimiter ((List.drop i1.toNat l).headD '\x00')) = true
  · rw [if_pos hc1] at hs
    exact absurd hs (by simp)
  · rw [if_neg hc1] at hs
    rw [if_neg hc1]
    by_cases hc2 : lA = []
    · rw [if_pos hc2] at hs
      exact absurd hs (by simp)
    · rw [if_neg hc2] at hs
      rw [if_neg hc2]
      by_cases hc3 : (decide (i2 ≤ 0) || delimiter ((List.drop i2.toNat lA).headD '\x00')) = true
      · rw [if_pos hc3] at hs
        exact absurd hs (by simp)
      · rw [if_neg hc3] at hs
        rw [if_neg hc3]
        have hpos2 : 0 < i2 := by
          have h1 := (Bool.or_eq_false_iff.mp ((Bool.not_eq_true _).mp hc3)).1
          have h2 := of_decide_eq_false h1
          omega
        rw [if_pos hpos2]
        unfold parseIndRef
        cases hg : goAtoi (List.take i2.toNat lA) with
        | error eg =>
          rw [hg] at hs
          exact absurd hs (by simp)
        | ok g =>
          rw [hg] at hs
          simp only [hg]
          have hc5 : (trimLeftSpace (List.drop i2.toNat lA) false).1.head? = some 'R' :=
            of_decide_eq_true hs
          have hc4 : (trimLeftSpace (List.drop i2.toNat lA) false).1 ≠ [] := by
            intro he
            rw [he] at hc5
            exact absurd hc5 (by simp)
          rw [if_neg hc4, if_pos hc5]
          simp

/-- C5: whenever the first numeric token (after the malformed-leading-zero
repair) converts to a signed 64-bit integer `i`, the parse returns an
IndirectRef exactly when the three-token shape holds — a second
integer token separated by the whitespace/comment skipper and then the byte
`'R'` — and in every other case returns `Integer i` with the cursor at the
short remainder immediately after the first token; the concrete conjunct is
the claim's example, input `"1 2"` through the dispatcher. -/
theorem claim5_int_promotion :
    (∀ (l : List Char) (i : Int),
        goAtoi (startParseNumericOrIndRef l).1 = .ok i →
        (indRefShape l = true →
            parseNumericOrIndRef l = .ok (.indirectRef i (indRefGen l), indRefRest l)) ∧
          (indRefShape l = false →
            parseNumericOrIndRef l = .ok (.integer i, (startParseNumericOrIndRef l).2.1))) ∧
      ParseObjectTop "1 2".data = .ok (.integer 1, " 2".data) := by
  refine ⟨fun l i h => ?_, rfl⟩
  have hm := parseNumericOrIndRef_int l i h
  constructor
  · intro hs
    rw [hm, if_pos hs]
  · intro hs
    rw [hm]
    simp [hs]

/-- C5 witness: the general statement applied at `"1 2"` (no promotion: the
token `2` is not followed by a separator, so the lookahead bails out and the
cursor stays at the short remainder `" 2"`) and at `"7 0 R"` (promotion). -/
theorem claim5_witness :
    parseNumericOrIndRef "1 2".data = .ok (.integer 1, " 2".data) ∧
      parseNumericOrIndRef "7 0 R".data = .ok (.indirectRef 7 0, []) :=
  ⟨(claim5_int_promotion.1 "1 2".data 1 rfl).2 rfl,
   (claim5_int_promotion.1 "7 0 R".data 7 rfl).1 rfl⟩

/-- C6: when the first numeric token overflows signed 64 bits (an `Atoi`
range error) but the three-token indirect-reference shape is present, the
parse consumes through the `'R'` and returns a Null placeholder with no
error; the concrete conjunct runs a 20-digit object number through the
dispatcher. -/
theorem claim6_range_error_null :
    (∀ l : List Char,
        goAtoi (startParseNumericOrIndRef l).1 = .error .range →
        indRefShape l = true →
        parseNumericOrIndRef l = .ok (.null, indRefRest l)) ∧
      ParseObjectTop "99999999999999999999 0 R".data = .ok (.null, []) :=
  ⟨parseNumericOrIndRef_range, rfl⟩

/-- C6 witness: the general statement applied at `"99999999999999999999 0 R"`,
whose first token exceeds the signed 64-bit range. -/
theorem claim6_witness :
    parseNumericOrIndRef "99999999999999999999 0 R".data = .ok (.null, []) :=
  claim6_range_error_null.1 "99999999999999999999 0 R".data rfl rfl


/-! ## Claim C7 -/

theorem goAtoi_ok_chars {t : List Char} {a : Int} (h : goAtoi t = .ok a) :
    t ≠ [] ∧ ∀ c ∈ t, c = '+' ∨ c = '-' ∨ isDigitCh c = true := by
  cases t with
  | nil => exact absurd h (by simp [goAtoi])
  | cons c rest =>
    refine ⟨by simp, ?_⟩
    unfold goAtoi at h
    dsimp only at h
    by_cases hsign : (decide (c = '-') || decide (c = '+')) = true
    · rw [if_pos hsign] at h
      split at h
      · cases h
      · rename_i hcond
        have hall : rest.all (fun c => isDigitCh c) = true := by
          rcases Bool.or_eq_false_iff.mp ((Bool.not_eq_true _).mp hcond) with ⟨ha, hb⟩
          simpa using hb
        intro x hx
        rcases List.mem_cons.mp hx with rfl | hxr
        · rcases Bool.or_eq_true_iff.mp hsign with h' | h'
          · right; left; exact of_decide_eq_true h'
          · left; exact of_decide_eq_true h'
        · right; right; exact List.all_eq_true.mp hall x hxr
    · rw [if_neg hsign] at h
      split at h
      · cases h
      · rename_i hcond
        have hall : (c :: rest).all (fun c => isDigitCh c) = true := by
          rcases Bool.or_eq_false_iff.mp ((Bool.not_eq_true _).mp hcond) with ⟨ha, hb⟩
          simpa using hb
        intro x hx
        right; right
        exact List.all_eq_true.mp hall x hx

theorem tok_char_props {c : Char} (h : c = '+' ∨ c = '-' ∨ isDigitCh c = true) :
    whitespace c = false ∧ c ≠ '%' ∧ c ≠ 'o' := by
  rcases h with rfl | rfl | hd
  · exact ⟨by decide, by decide, by decide⟩
  · exact ⟨by decide, by decide, by decide⟩
  · refine ⟨?_, ?_, ?_⟩
    · cases hw : whitespace c
      · rfl
      · exfalso
        unfold whitespace isGoSpace at hw
        simp only [Bool.or_eq_true, decide_eq_true_eq] at hw
        rcases hw with ((((((((rfl | rfl) | rfl) | rfl) | rfl) | rfl) | rfl) | rfl) | rfl) <;>
          exact absurd hd (by decide)
    · intro he; subst he; exact absurd hd (by decide)
    · intro he; subst he; exact absurd hd (by decide)

theorem trimLeftSpace_no_comment (s : List Char)
    (h : (s.dropWhile (fun c => whitespace c)).head? ≠ some '%') :
    trimLeftSpace s false = (s.dropWhile (fun c => whitespace c), false) := by
  unfold trimLeftSpace
  rw [trimLeftSpaceAux]
  simp only [Bool.false_eq_true, if_false]
  rw [if_pos (Bool.or_eq_true_iff.mpr (Or.inr (decide_eq_true h)))]

theorem findIdxFrom_append_true (p : Char → Bool) (c : Char) (y : List Char)
    (hc : p c = true) :
    ∀ x : List Char, (∀ a ∈ x, p a = false) →
      findIdxFrom p (x ++ c :: y) = some x.length := by
  intro x
  induction x with
  | nil => intro _; simp [findIdxFrom, hc]
  | cons a t ih =>
    intro h
    rw [List.cons_append, findIdxFrom]
    rw [if_neg (by simp [h a (by simp)])]
    rw [ih (fun b hb => h b (by simp [hb]))]
    simp

theorem indexOf_obj (r : List Char) :
    ∀ x : List Char, 'o' ∉ x →
      indexOf ['o', 'b', 'j'] (x ++ 'o' :: 'b' :: 'j' :: r) = some x.length := by
  intro x
  induction x with
  | nil => intro _; rfl
  | cons a t ih =>
    intro h
    have ha : a ≠ 'o' := by intro he; subst he; exact h (by simp)
    rw [List.cons_append, indexOf, hasPfx]
    rw [if_neg (Ne.symm ha), if_neg (by simp)]
    rw [ih (fun hm => h (by simp [hm]))]
    simp

theorem take_len_append (x y : List Char) : (x ++ y).take x.length = x := by simp

theorem drop_len_append (x y : List Char) : (x ++ y).drop x.length = y := by simp

theorem drop_len_plus (x y : List Char) (n : Nat) :
    (x ++ y).drop (x.length + n) = y.drop n := by
  rw [List.drop_append]

theorem sepByte_false {c : Char} (h : c = '+' ∨ c = '-' ∨ isDigitCh c = true) :
    (List.contains ['%'] c || whitespace c) = false := by
  obtain ⟨hws, hpc, _⟩ := tok_char_props h
  simp [List.contains, hpc, hws]

theorem dropWhile_ws_append (x z : List Char) (hne : x ≠ [])
    (hx : ∀ c ∈ x, whitespace c = false) :
    (x ++ z).dropWhile (fun c => whitespace c) = x ++ z := by
  cases x with
  | nil => exact absurd rfl hne
  | cons c t =>
    rw [List.cons_append, List.dropWhile_cons_of_neg (by simp [hx c (by simp)])]

theorem head?_append_ne_pct (x z : List Char) (hne : x ≠ [])
    (hx : ∀ c ∈ x, c ≠ '%') : (x ++ z).head? ≠ some '%' := by
  cases x with
  | nil => exact absurd rfl hne
  | cons c t =>
    rw [List.cons_append]
    intro he
    exact hx c (by simp) (Option.some.inj he)

theorem ParseObjectAttributes_two_ints (a b : Int) (t1 t2 gap rest : List Char)
    (h1 : goAtoi t1 = .ok a) (h2 : goAtoi t2 = .ok b) (hgap : 'o' ∉ gap) :
    ParseObjectAttributes
        (t1 ++ (' ' :: (t2 ++ (' ' :: (gap ++ ('o' :: 'b' :: 'j' :: rest)))))) =
      .ok (a, b, rest) := by
  obtain ⟨ht1ne, ht1c⟩ := goAtoi_ok_chars h1
  obtain ⟨ht2ne, ht2c⟩ := goAtoi_ok_chars h2
  have hassoc : t1 ++ (' ' :: (t2 ++ (' ' :: (gap ++ ('o' :: 'b' :: 'j' :: rest))))) =
      (t1 ++ (' ' :: (t2 ++ (' ' :: gap)))) ++ ('o' :: 'b' :: 'j' :: rest) := by
    simp
  have hx : 'o' ∉ (t1 ++ (' ' :: (t2 ++ (' ' :: gap)))) := by
    intro hm
    simp only [List.mem_append, List.mem_cons] at hm
    rcases hm with hin | hsp | hin | hsp | hin
    · exact absurd (ht1c 'o' hin) (by decide)
    · exact absurd hsp (by decide)
    · exact absurd (ht2c 'o' hin) (by decide)
    · exact absurd hsp (by decide)
    · exact hgap hin
  unfold ParseObjectAttributes
  rw [hassoc]
  rw [if_neg (by simp)]
  rw [show "obj".data = ['o', 'b', 'j'] from rfl]
  rw [indexOf_obj rest _ hx]
  dsimp only
  rw [take_len_append, drop_len_plus]
  have hws1 : ∀ c ∈ t1, whitespace c = false := fun c hc => (tok_char_props (ht1c c hc)).1
  have hpc1 : ∀ c ∈ t1, c ≠ '%' := fun c hc => (tok_char_props (ht1c c hc)).2.1
  have htrim1 : trimLeftSpace (t1 ++ (' ' :: (t2 ++ (' ' :: gap)))) false =
      (t1 ++ (' ' :: (t2 ++ (' ' :: gap))), false) := by
    rw [trimLeftSpace_no_comment]
    · rw [dropWhile_ws_append _ _ ht1ne hws1]
    · rw [dropWhile_ws_append _ _ ht1ne hws1]
      exact head?_append_ne_pct _ _ ht1ne hpc1
  rw [htrim1]
  dsimp only
  rw [if_neg (by simp)]
  unfold positionToNextWhitespaceOrChar
  simp only [show ((['%'] : List Char) = []) = False from by simp, if_false]
  have hfind1 : findIdxFrom (fun c => List.contains ['%'] c || whitespace c)
      (t1 ++ (' ' :: (t2 ++ (' ' :: gap)))) = some t1.length :=
    findIdxFrom_append_true _ ' ' _ (by decide) t1
      (fun x hxx => sepByte_false (ht1c x hxx))
  rw [hfind1]
  dsimp only
  have hlen1 : 0 < t1.length := List.length_pos.mpr ht1ne
  rw [if_neg (by omega)]
  simp only [Int.toNat_natCast]
  rw [take_len_append, h1]
  dsimp only
  rw [drop_len_append]
  have hws2 : ∀ c ∈ t2, whitespace c = false := fun c hc => (tok_char_props (ht2c c hc)).1
  have hpc2 : ∀ c ∈ t2, c ≠ '%' := fun c hc => (tok_char_props (ht2c c hc)).2.1
  have htrim2 : trimLeftSpace (' ' :: (t2 ++ (' ' :: gap))) false =
      (t2 ++ (' ' :: gap), false) := by
    have hdw : (' ' :: (t2 ++ (' ' :: gap))).dropWhile (fun c => whitespace c) =
        t2 ++ (' ' :: gap) := by
      rw [List.dropWhile_cons_of_pos (by decide)]
      exact dropWhile_ws_append _ _ ht2ne hws2
    rw [trimLeftSpace_no_comment]
    · rw [hdw]
    · rw [hdw]
      exact head?_append_ne_pct _ _ ht2ne hpc2
  rw [htrim2]
  dsimp only
  rw [if_neg (by simp)]
  have hfind2 : findIdxFrom (fun c => List.contains ['%'] c || whitespace c)
      (t2 ++ (' ' :: gap)) = some t2.length :=
    findIdxFrom_append_true _ ' ' _ (by decide) t2
      (fun x hxx => sepByte_false (ht2c x hxx))
  rw [hfind2]
  dsimp only
  have hlen2 : 0 < t2.length := List.length_pos.mpr ht2ne
  rw [if_neg (by omega)]
  simp only [Int.toNat_natCast]
  rw [take_len_append, h2]
  rfl

/-- C7 counterexample: the claim says `ParseObjectAttributes` succeeds only
when the text before the first `"obj"` consists of two whitespace-separated
non-negative integers; the source's `strconv.Atoi` accepts a sign, and the
function stops reading after the second token, so both a negative object
number and extra tokens before `"obj"` are accepted. -/
theorem claim7_counterexample :
    ParseObjectAttributes "-5 0 obj".data = .ok (-5, 0, []) ∧
      ParseObjectAttributes "1 2 3 obj tail".data = .ok (1, 2, " tail".data) :=
  ⟨rfl, rfl⟩

/-- C7 amended: `ParseObjectAttributes` locates the first occurrence of the
literal `obj` and succeeds when the text before it begins with two
whitespace-separated tokens that `Atoi` accepts — signed integers, not only
non-negative ones — each followed by whitespace; any remaining text before
`obj` is ignored rather than rejected; on success it returns the two parsed
numbers and sets the cursor to the text immediately following `obj`. -/
theorem claim7_amended :
    ∀ (a b : Int) (t1 t2 gap rest : List Char),
      goAtoi t1 = .ok a → goAtoi t2 = .ok b → 'o' ∉ gap →
      ParseObjectAttributes
          (t1 ++ (' ' :: (t2 ++ (' ' :: (gap ++ ('o' :: 'b' :: 'j' :: rest)))))) =
        .ok (a, b, rest) :=
  ParseObjectAttributes_two_ints

/-- C7 witness: the amended statement at the concrete header
`"-5 0 99 obj x"` — a negative object number, an ignored third token, and the
cursor set to the text after `obj`. -/
theorem claim7_witness :
    ParseObjectAttributes ("-5".data ++ (' ' :: ("0".data ++ (' ' :: ("99 ".data ++
        ('o' :: 'b' :: 'j' :: " x".data)))))) = .ok (-5, 0, " x".data) :=
  claim7_amended (-5) 0 "-5".data "0".data "99 ".data " x".data rfl rfl (by decide)


/-! ## Claim C9 -/

theorem positionToNextEOL_suffix (s : List Char) : positionToNextEOL s <:+ s := by
  induction s with
  | nil => exact List.suffix_refl []
  | cons c rest ih =>
    unfold positionToNextEOL
    split
    · exact List.suffix_refl _
    · exact ih.trans (List.suffix_cons c rest)

theorem trimLeftSpaceAux_suffix :
    ∀ (fuel : Nat) (s : List Char) (relaxed eol : Bool),
      (trimLeftSpaceAux fuel s relaxed eol).1 <:+ s := by
  intro fuel
  induction fuel with
  | zero => intro s r e; exact List.suffix_refl s
  | succ n ih =>
    intro s r e
    unfold trimLeftSpaceAux
    dsimp only
    have hp : ∀ p : List Char × Bool,
        p.1 <:+ s →
        ((if (p.1.dropWhile (fun c => whitespace c)).length ≤ 1 ||
              (p.1.dropWhile (fun c => whitespace c)).head? ≠ some '%' then
            (p.1.dropWhile (fun c => whitespace c), p.2)
          else
            trimLeftSpaceAux n
              (positionToNextEOL (p.1.dropWhile (fun c => whitespace c))) r p.2).1 <:+ s) := by
      intro p hps
      have hdw : p.1.dropWhile (fun c => whitespace c) <:+ s :=
        (List.dropWhile_suffix _).trans hps
      split
      · exact hdw
      · exact ((ih _ r p.2).trans (positionToNextEOL_suffix _)).trans hdw
    split
    · exact hp _ ((List.dropWhile_suffix _).trans (List.suffix_refl s))
    · exact hp _ (List.suffix_refl s)

theorem trimLeftSpace_suffix (s : List Char) (r : Bool) :
    (trimLeftSpace s r).1 <:+ s :=
  trimLeftSpaceAux_suffix _ s r false

theorem forwardParseBuf_suffix (l : List Char) (n : Nat) : forwardParseBuf l n <:+ l := by
  unfold forwardParseBuf
  split
  · exact List.drop_suffix n l
  · exact List.nil_suffix

theorem forwardParseBuf_lt {x l : List Char} (n : Nat) (hn : 0 < n) (hx : x <:+ l)
    (hl : 0 < l.length) : (forwardParseBuf x n).length < l.length := by
  unfold forwardParseBuf
  split
  · rename_i hcase
    have := hx.length_le
    simp only [List.length_drop]
    omega
  · simpa using hl


theorem parseName_cursor {l : List Char} {nm l' : List Char}
    (h : parseName l = .ok (nm, l')) : l' <:+ l ∧ l'.length < l.length := by
  unfold parseName at h
  split at h
  · cases h
  · split at h
    · cases h
    · rename_i hne hcond
      have hlen : 2 ≤ l.length := by
        simp only [Bool.or_eq_true, decide_eq_true_eq, not_or] at hcond
        omega
      have h1 : forwardParseBuf l 1 = l.drop 1 := by
        unfold forwardParseBuf
        rw [if_pos (by omega)]
      dsimp only at h
      split at h
      · split at h
        · cases h
          dsimp only
          exact ⟨List.nil_suffix, by simp only [List.length_nil]; omega⟩
        · cases h
      · split at h
        · cases h
          dsimp only
          refine ⟨(List.drop_suffix _ _).trans (forwardParseBuf_suffix l 1), ?_⟩
          rw [h1]
          simp only [List.length_drop]
          omega
        · cases h


theorem parseStringLiteral_cursor {l l' : List Char} {v : Obj}
    (h : parseStringLiteral l = .ok (v, l')) : l' <:+ l ∧ l'.length < l.length := by
  unfold parseStringLiteral at h
  split at h
  · cases h
  · split at h
    · cases h
    · rename_i hne hcond
      have hlen : 2 ≤ l.length := by
        simp only [Bool.or_eq_true, decide_eq_true_eq, not_or] at hcond
        omega
      dsimp only at h
      split at h
      · cases h
      · cases h
        constructor
        · exact (forwardParseBuf_suffix _ 1).trans (List.drop_suffix _ _)
        · exact forwardParseBuf_lt 1 (by omega) (List.drop_suffix _ _) (by omega)

theorem parseHexLiteral_cursor {l l' : List Char} {v : Obj}
    (h : parseHexLiteral l = .ok (v, l')) : l' <:+ l ∧ l'.length < l.length := by
  unfold parseHexLiteral at h
  split at h
  · cases h
  · split at h
    · cases h
    · rename_i hne hcond
      have hlen : 2 ≤ l.length := by
        simp only [Bool.or_eq_true, decide_eq_true_eq, not_or] at hcond
        omega
      dsimp only at h
      split at h
      · cases h
      · split at h
        · cases h
        · cases h
          constructor
          · exact (forwardParseBuf_suffix _ 1).trans
              ((List.drop_suffix _ _).trans (forwardParseBuf_suffix l 1))
          · exact forwardParseBuf_lt 1 (by omega)
              ((List.drop_suffix _ _).trans (forwardParseBuf_suffix l 1)) (by omega)

theorem parseIndRef_cursor {s lA l1 line0 : List Char} {i i2 : Int} {r : Bool}
    {v : Obj} {l' : List Char}
    (h : parseIndRef s lA l1 line0 i i2 r = .ok (v, l')) :
    (l' = line0 ∧ v = .null) ∨ l' = l1 ∨
      l' = forwardParseBuf (trimLeftSpace (List.drop i2.toNat lA) false).1 1 := by
  unfold parseIndRef at h
  split at h
  · cases h
    right; left; rfl
  · dsimp only at h
    split at h
    · split at h
      · cases h
        left; exact ⟨rfl, rfl⟩
      · cases h
        right; left; rfl
    · split at h
      · split at h
        · cases h
          right; right; rfl
        · cases h
          right; right; rfl
      · split at h
        · cases h
          left; exact ⟨rfl, rfl⟩
        · cases h
          right; left; rfl


theorem startParse_l1 (l : List Char) (hne : l ≠ []) :
    (startParseNumericOrIndRef l).2.1 <:+ l ∧
      (startParseNumericOrIndRef l).2.1.length < l.length := by
  have hlen0 : 0 < l.length := List.length_pos.mpr hne
  unfold startParseNumericOrIndRef
  dsimp only
  split
  · rename_i hpos
    refine ⟨List.drop_suffix _ _, ?_⟩
    simp only [List.length_drop]
    omega
  · exact ⟨List.nil_suffix, by simpa using hlen0⟩

theorem parseNumericOrIndRef_cursor {l l' : List Char} {v : Obj}
    (h : parseNumericOrIndRef l = .ok (v, l')) :
    l' <:+ l ∧ (v ≠ .null → l'.length < l.length) := by
  unfold parseNumericOrIndRef at h
  split at h
  · cases h
  · rename_i hne
    have hlen0 : 0 < l.length := List.length_pos.mpr hne
    have hl1 := startParse_l1 l hne
    dsimp only at h
    split at h
    · -- goAtoi error
      split at h
      · -- float path
        split at h
        · cases h
          exact ⟨hl1.1, fun _ => hl1.2⟩
        · cases h
      · -- range error carried into the lookahead
        split at h
        · split at h
          · cases h
          · cases h
            exact ⟨hl1.1, fun _ => hl1.2⟩
        · split at h
          · split at h
            · cases h
            · cases h
              exact ⟨hl1.1, fun _ => hl1.2⟩
          · split at h
            · split at h
              · cases h
              · cases h
                exact ⟨hl1.1, fun _ => hl1.2⟩
            · rcases parseIndRef_cursor h with ⟨rfl, rfl⟩ | rfl | rfl
              · exact ⟨List.suffix_refl _, fun hv => absurd rfl hv⟩
              · exact ⟨hl1.1, fun _ => hl1.2⟩
              · constructor
                · exact (forwardParseBuf_suffix _ 1).trans
                    ((trimLeftSpace_suffix _ _).trans ((List.drop_suffix _ _).trans
                      ((trimLeftSpace_suffix _ _).trans (List.drop_suffix _ _))))
                · intro _
                  exact forwardParseBuf_lt 1 (by omega)
                    ((trimLeftSpace_suffix _ _).trans ((List.drop_suffix _ _).trans
                      ((trimLeftSpace_suffix _ _).trans (List.drop_suffix _ _)))) hlen0
    · -- goAtoi ok
      split at h
      · cases h
        exact ⟨hl1.1, fun _ => hl1.2⟩
      · split at h
        · cases h
          exact ⟨hl1.1, fun _ => hl1.2⟩
        · split at h
          · cases h
            exact ⟨hl1.1, fun _ => hl1.2⟩
          · rcases parseIndRef_cursor h with ⟨rfl, rfl⟩ | rfl | rfl
            · exact ⟨List.suffix_refl _, fun hv => absurd rfl hv⟩
            · exact ⟨hl1.1, fun _ => hl1.2⟩
            · constructor
              · exact (forwardParseBuf_suffix _ 1).trans
                  ((trimLeftSpace_suffix _ _).trans ((List.drop_suffix _ _).trans
                    ((trimLeftSpace_suffix _ _).trans (List.drop_suffix _ _))))
              · intro _
                exact forwardParseBuf_lt 1 (by omega)
                  ((trimLeftSpace_suffix _ _).trans ((List.drop_suffix _ _).trans
                    ((trimLeftSpace_suffix _ _).trans (List.drop_suffix _ _)))) hlen0


theorem parseBooleanOrNull_cursor {l : List Char} {v : Obj} {n : Nat}
    (h : parseBooleanOrNull l = some (v, n)) (hne : l ≠ []) :
    forwardParseBuf l n <:+ l ∧ (forwardParseBuf l n).length < l.length := by
  have hlen0 : 0 < l.length := List.length_pos.mpr hne
  unfold parseBooleanOrNull at h
  split at h
  · cases h
    exact ⟨forwardParseBuf_suffix _ _,
      forwardParseBuf_lt 4 (by omega) (List.suffix_refl l) hlen0⟩
  · split at h
    · cases h
      exact ⟨forwardParseBuf_suffix _ _,
        forwardParseBuf_lt 4 (by omega) (List.suffix_refl l) hlen0⟩
    · split at h
      · cases h
        exact ⟨forwardParseBuf_suffix _ _,
          forwardParseBuf_lt 5 (by omega) (List.suffix_refl l) hlen0⟩
      · cases h

theorem hasPfx_ne_nil {a : Char} {p l : List Char} (h : hasPfx (a :: p) l = true) :
    l ≠ [] := by
  cases l with
  | nil => cases h
  | cons c t => simp

/-- Cursor discipline of every parser: on success the returned cursor is a
suffix of the input, and — except for the dictionary key loop, which may
return its input when it starts at `>>`, and a `Null` result — it is strictly
shorter. -/
theorem parserCursor (fuel : Nat) :
    (∀ l v l', ParseObjectF fuel l = .ok (v, l') →
        l' <:+ l ∧ (v ≠ .null → l'.length < l.length)) ∧
      (∀ l a l', parseArrayF fuel l = .ok (a, l') → l' <:+ l ∧ l'.length < l.length) ∧
      (∀ acc l a l', parseArrayLoopF fuel acc l = .ok (a, l') →
        l' <:+ l ∧ l'.length < l.length) ∧
      (∀ d l r d' l', processDictKeysLoopF fuel d l r = .ok (d', l') → l' <:+ l) ∧
      (∀ l r d' l', parseDictF fuel l r = .ok (d', l') → l' <:+ l ∧ l'.length < l.length) ∧
      (∀ l v l', parseHexLiteralOrDictF fuel l = .ok (v, l') →
        l' <:+ l ∧ l'.length < l.length) := by
  induction fuel with
  | zero =>
    refine ⟨fun l v l' h => ?_, fun l a l' h => ?_, fun acc l a l' h => ?_,
      fun d l r d' l' h => ?_, fun l r d' l' h => ?_, fun l v l' h => ?_⟩ <;> cases h
  | succ n ih =>
    obtain ⟨ihO, ihA, ihAL, ihDK, ihD, ihHD⟩ := ih
    refine ⟨fun l v l' h => ?_, fun l a l' h => ?_, fun acc l a l' h => ?_,
      fun d l r d' l' h => ?_, fun l r d' l' h => ?_, fun l v l' h => ?_⟩
    · -- ParseObjectF
      unfold ParseObjectF at h
      split at h
      · cases h
      · split at h
        · cases h
        · rename_i l0pair c rest heq0
          have hl0 : c :: rest <:+ l := heq0 ▸ trimLeftSpace_suffix l false
          have hl0len : (c :: rest).length ≤ l.length := hl0.length_le
          dsimp only at h
          split at h
          · split at h
            · cases h
            · cases h
              rename_i heq
              have := ihA _ _ _ heq
              exact ⟨this.1.trans hl0, fun _ => lt_of_lt_of_le this.2 hl0len⟩
          · split at h
            · split at h
              · cases h
              · cases h
                rename_i heq
                have := parseName_cursor heq
                exact ⟨this.1.trans hl0, fun _ => lt_of_lt_of_le this.2 hl0len⟩
            · split at h
              · split at h
                · cases h
                · cases h
                  rename_i heq
                  have := ihHD _ _ _ heq
                  exact ⟨this.1.trans hl0, fun _ => lt_of_lt_of_le this.2 hl0len⟩
              · split at h
                · split at h
                  · cases h
                  · cases h
                    rename_i heq
                    have := parseStringLiteral_cursor heq
                    exact ⟨this.1.trans hl0, fun _ => lt_of_lt_of_le this.2 hl0len⟩
                · split at h
                  · cases h
                    rename_i heq
                    have := parseBooleanOrNull_cursor heq (by simp)
                    exact ⟨this.1.trans hl0, fun _ => lt_of_lt_of_le this.2 hl0len⟩
                  · have := parseNumericOrIndRef_cursor h
                    exact ⟨this.1.trans hl0,
                      fun hv => lt_of_lt_of_le (this.2 hv) hl0len⟩
    · -- parseArrayF
      unfold parseArrayF at h
      split at h
      · cases h
      · split at h
        · cases h
        · split at h
          · cases h
          · rename_i hne hpfx hlen1
            have hlen0 : 0 < l.length := List.length_pos.mpr hne
            dsimp only at h
            split at h
            · cases h
            · have hloop := ihAL _ _ _ _ h
              have hfwd : (forwardParseBuf l 1).length < l.length :=
                forwardParseBuf_lt 1 (by omega) (List.suffix_refl l) hlen0
              have htr : (trimLeftSpace (forwardParseBuf l 1) false).1 <:+
                  forwardParseBuf l 1 := trimLeftSpace_suffix _ _
              constructor
              · exact (hloop.1.trans htr).trans (forwardParseBuf_suffix l 1)
              · have := htr.length_le
                omega
    · -- parseArrayLoopF
      unfold parseArrayLoopF at h
      split at h
      · rename_i hpfx
        cases h
        have hne := hasPfx_ne_nil hpfx
        exact ⟨forwardParseBuf_suffix _ _,
          forwardParseBuf_lt 1 (by omega) (List.suffix_refl l)
            (List.length_pos.mpr hne)⟩
      · cases heq : ParseObjectF n l with
        | error e => rw [heq] at h; cases h
        | ok p =>
          obtain ⟨obj, l₂⟩ := p
          rw [heq] at h
          dsimp only at h
          split at h
          · cases h
          · split at h
            · cases h
            · have hobj := ihO _ _ _ heq
              have hloop := ihAL _ _ _ _ h
              have htr : (trimLeftSpace l₂ false).1 <:+ l₂ := trimLeftSpace_suffix _ _
              constructor
              · exact (hloop.1.trans htr).trans hobj.1
              · have h1 := htr.length_le
                have h2 := hobj.1.length_le
                have h3 := hloop.2
                omega
    · -- processDictKeysLoopF
      unfold processDictKeysLoopF at h
      split at h
      · cases h
        exact List.suffix_refl _
      · cases heq : parseName l with
        | error e => rw [heq] at h; cases h
        | ok p =>
          obtain ⟨key, l₁⟩ := p
          rw [heq] at h
          dsimp only at h
          split at h
          · cases h
          · have hname := parseName_cursor heq
            have htr : (trimLeftSpace l₁ r).1 <:+ l₁ := trimLeftSpace_suffix _ _
            split at h
            · split at h
              · cases h
              · have hloop := ihDK _ _ _ _ _ h
                exact (hloop.trans htr).trans hname.1
            · cases heq2 : ParseObjectF n (trimLeftSpace l₁ r).1 with
              | error e => rw [heq2] at h; cases h
              | ok q =>
                obtain ⟨obj, l₂⟩ := q
                rw [heq2] at h
                dsimp only at h
                split at h
                · cases h
                · split at h
                  · cases h
                  · have hobj := ihO _ _ _ heq2
                    have hloop := ihDK _ _ _ _ _ h
                    have htr2 : (trimLeftSpace l₂ false).1 <:+ l₂ :=
                      trimLeftSpace_suffix _ _
                    exact (((hloop.trans htr2).trans hobj.1).trans htr).trans hname.1
    · -- parseDictF
      unfold parseDictF at h
      split at h
      · cases h
      · split at h
        · cases h
        · rename_i hne hcond
          have hlen4 : 4 ≤ l.length := by
            simp only [Bool.or_eq_true, decide_eq_true_eq, not_or] at hcond
            omega
          dsimp only at h
          split at h
          · cases h
          · cases heq : processDictKeysLoopF n []
                (trimLeftSpace (forwardParseBuf l 2) false).1 r with
            | error e => rw [heq] at h; cases h
            | ok p =>
              obtain ⟨dd, l₂⟩ := p
              rw [heq] at h
              dsimp only at h
              cases h
              have hloop := ihDK _ _ _ _ _ heq
              have hsub : l₂ <:+ l :=
                (hloop.trans (trimLeftSpace_suffix _ _)).trans (forwardParseBuf_suffix l 2)
              constructor
              · exact (forwardParseBuf_suffix _ 2).trans hsub
              · exact forwardParseBuf_lt 2 (by omega) hsub (by omega)
    · -- parseHexLiteralOrDictF
      unfold parseHexLiteralOrDictF at h
      split at h
      · cases h
      · split at h
        · cases heq : parseDictF n l false with
          | ok p =>
            obtain ⟨dd, l₂⟩ := p
            rw [heq] at h
            cases h
            exact ihD _ _ _ _ heq
          | error e =>
            rw [heq] at h
            cases heq2 : parseDictF n l true with
            | ok p =>
              obtain ⟨dd, l₂⟩ := p
              rw [heq2] at h
              cases h
              exact ihD _ _ _ _ heq2
            | error e2 => rw [heq2] at h; cases h
        · exact parseHexLiteral_cursor h

/-- C9: whenever `ParseObject` succeeds, the returned cursor is a suffix of
the input buffer (its position is ≥ the starting position), and whenever a
non-empty object was consumed — a returned value other than `Null`, which the
data model treats as "absent" — the position is strictly greater.  (The only
zero-advance successes are `Null` placeholders from the integer-overflow
recovery path, whose cursor the source leaves untouched.) -/
theorem claim9_cursor_monotonic :
    ∀ (fuel : Nat) (l : List Char) (v : Obj) (l' : List Char),
      ParseObjectF fuel l = .ok (v, l') →
      l' <:+ l ∧ (v ≠ .null → l'.length < l.length) :=
  fun fuel => (parserCursor fuel).1

/-- C9 witness: the statement applied to the parse of `"[1]"`, which succeeds
with the whole buffer consumed. -/
theorem claim9_witness :
    ([] : List Char) <:+ "[1]".data ∧
      (Obj.array [Obj.integer 1] ≠ Obj.null →
        ([] : List Char).length < "[1]".data.length) :=
  claim9_cursor_monotonic 20 "[1]".data (Obj.array [Obj.integer 1]) [] rfl

end PdfcpuParse
